import Mathlib

/-!
# CDI operator: retiring an old CRD version (pkg/operator/controller/cruft.go)

A shallow embedding of `reconcileCDICRD`, `removeOldVersions` and the user-list
computation of `reconcileServiceAccounts`, followed by the properties proved about them.

Conventions of the embedding

* A Go `error` result is an `Option Error`; `none` is the nil error.
* A Go slice is a `Slice`: the nil slice and an allocated slice are different values,
  because `reflect.DeepEqual` tells them apart even when both have length zero.
* The write check `reflect.DeepEqual(crdCopy, crd)` is `deepEqualCRD`: field by field, with
  Go `==` on the floating-point numbers of a schema, so that a schema holding a not-a-number
  differs from its own copy.
* Calls that reach the outside world (the store client and the helpers that write
  through it) are recorded, in program order, in a list of `Call`s returned next to the
  result. Logging is not recorded.
* Functions of the package that live in other files (`isControllerDeployment`,
  `newestVersion`, `olderVersionsExist`, `desiredIsStorage`, `rewriteOldObjects`,
  `removeStoredVersion`) are fields of `Helpers`; every theorem that does not fix them
  holds for all their behaviours.
-/

namespace Cruft

/-! ## Go values -/

/-- A Go slice value: the nil slice, or an allocated slice holding a sequence of elements.
`make([]T, 0)` and `[]T{}` are `alloc []`; `append` always yields an allocated slice. -/
inductive Slice (α : Type) where
  | nil : Slice α
  | alloc (elems : List α) : Slice α
  deriving DecidableEq, Repr

/-- The elements a `range` loop visits; the nil slice has none. -/
def Slice.toList {α : Type} : Slice α → List α
  | Slice.nil => []
  | Slice.alloc elems => elems

/-- Go `append(s, x)`. -/
def Slice.append {α : Type} (s : Slice α) (x : α) : Slice α :=
  Slice.alloc (s.toList ++ [x])

/-- The function `reflect.DeepEqual` on embedded values that hold no floating-point number
(strings, slices of strings): structural equality, under which a nil slice and an empty
allocated slice differ. -/
def DeepEqual {α : Type} [DecidableEq α] (a b : α) : Bool :=
  decide (a = b)

/-- Errors returned by the store client. `NotFound` are the errors recognised by
`errors.IsNotFound`, `NoMatch` those recognised by `meta.IsNoMatchError`. -/
inductive Error where
  | NotFound (message : String)
  | NoMatch (message : String)
  | Other (message : String)
  deriving DecidableEq, Repr

/-- The predicate `errors.IsNotFound` on a non-nil error. -/
def IsNotFound : Error → Bool
  | Error.NotFound _ => true
  | _ => false

/-- The predicate `meta.IsNoMatchError` on a non-nil error. -/
def IsNoMatchError : Error → Bool
  | Error.NoMatch _ => true
  | _ => false

/-! ## Kubernetes objects -/

/-- A Go `float64` as far as `==` can tell: the not-a-number value, which `==` finds
different from every value and from itself, or a number. -/
inductive Float64 where
  | NaN
  | number (v : Int)
  deriving DecidableEq, Repr

/-- Go `==` on `float64`. -/
def Float64.equal : Float64 → Float64 → Bool
  | Float64.number a, Float64.number b => decide (a = b)
  | _, _ => false

/-- One entry of `crd.Spec.Versions`. The code never reads the schema; it reaches the write
check through `reflect.DeepEqual` only. `Schema` stands for the parts of the schema without
floating-point numbers, `SchemaMaximum` for its `*float64` fields (`Maximum`, `Minimum`,
`MultipleOf`), nil when absent. -/
structure CustomResourceDefinitionVersion where
  Name : String
  Served : Bool
  Storage : Bool
  Schema : String
  SchemaMaximum : Option Float64 := none
  deriving DecidableEq, Repr

structure CustomResourceDefinitionSpec where
  Group : String
  Versions : Slice CustomResourceDefinitionVersion
  PreserveUnknownFields : Bool
  deriving DecidableEq, Repr

/-- The status of a CRD. `StoredVersions` is the stored-version ledger; nothing in this file
reassigns it between `DeepCopy` and `DeepEqual`, so it is kept as a plain list. -/
structure CustomResourceDefinitionStatus where
  StoredVersions : List String
  deriving DecidableEq, Repr

structure CustomResourceDefinition where
  Name : String
  Spec : CustomResourceDefinitionSpec
  Status : CustomResourceDefinitionStatus
  deriving DecidableEq, Repr

/-- The function `reflect.DeepEqual` on two `*float64` that are different pointers (one of
them comes out of `DeepCopy`): both nil, or both set and the numbers equal under `==`. -/
def deepEqualFloat64Ptr : Option Float64 → Option Float64 → Bool
  | none, none => true
  | some a, some b => a.equal b
  | _, _ => false

/-- The function `reflect.DeepEqual` on two version entries: field by field. -/
def deepEqualVersion (a b : CustomResourceDefinitionVersion) : Bool :=
  decide (a.Name = b.Name) && decide (a.Served = b.Served) && decide (a.Storage = b.Storage) &&
    decide (a.Schema = b.Schema) && deepEqualFloat64Ptr a.SchemaMaximum b.SchemaMaximum

/-- The function `reflect.DeepEqual` on the elements of two version slices: same length and
deeply equal entries at every index. -/
def deepEqualVersionList :
    List CustomResourceDefinitionVersion → List CustomResourceDefinitionVersion → Bool
  | [], [] => true
  | a :: as, b :: bs => deepEqualVersion a b && deepEqualVersionList as bs
  | _, _ => false

/-- The function `reflect.DeepEqual` on two version slices with different backing arrays:
both nil, or both allocated with deeply equal elements. -/
def deepEqualVersions :
    Slice CustomResourceDefinitionVersion → Slice CustomResourceDefinitionVersion → Bool
  | Slice.nil, Slice.nil => true
  | Slice.alloc as, Slice.alloc bs => deepEqualVersionList as bs
  | _, _ => false

/-- The function `reflect.DeepEqual` on a CRD and a CRD that shares no pointer with it, as
in `reflect.DeepEqual(crdCopy, crd)` where `crdCopy` is a `DeepCopy`: field by field. It is
not reflexive: a nil version slice differs from an empty allocated one, and a schema that
holds a not-a-number differs from its own copy. -/
def deepEqualCRD (a b : CustomResourceDefinition) : Bool :=
  decide (a.Name = b.Name) && decide (a.Spec.Group = b.Spec.Group) &&
    deepEqualVersions a.Spec.Versions b.Spec.Versions &&
    decide (a.Spec.PreserveUnknownFields = b.Spec.PreserveUnknownFields) &&
    decide (a.Status = b.Status)

/-- The fields of an `appsv1.Deployment` that the gates look at. -/
structure Deployment where
  Name : String
  Namespace : String
  SpecReplicas : Option Int
  StatusReplicas : Int
  StatusReadyReplicas : Int
  deriving DecidableEq, Repr

/-- The lifecycle points of `callbacks.ReconcileState`. -/
inductive ReconcileState where
  | PreCreate
  | PostCreate
  | PostRead
  | PreUpdate
  | PostUpdate
  | PreDelete
  | PostDelete
  | OperatorDelete
  deriving DecidableEq, Repr

/-! ## removeOldVersions -/

/-- The function `removeOldVersions`: a fresh allocated slice receives, in order, every
version whose name is the desired one, and replaces `crd.Spec.Versions`. -/
def removeOldVersions (desiredVersion : String) (crd : CustomResourceDefinition) :
    CustomResourceDefinition :=
  let newVersions := crd.Spec.Versions.toList.foldl
    (fun (acc : Slice CustomResourceDefinitionVersion) version =>
      if version.Name == desiredVersion then acc.append version else acc)
    (Slice.alloc [])
  { crd with Spec := { crd.Spec with Versions := newVersions } }

/-! ## reconcileCDICRD -/

/-- The store client as seen by one invocation of `reconcileCDICRD`: what the single `Get`
of the CRD `cdis.cdi.kubevirt.io` yields (the object, left at its zero value on failure,
and the error) and what an `Update` of a CRD would return. -/
structure Client where
  Get : CustomResourceDefinition × Option Error
  Update : CustomResourceDefinition → Option Error

structure ReconcileCallbackArgs where
  State : ReconcileState
  CurrentObject : Deployment
  Client : Client

/-- Functions that `reconcileCDICRD` calls and that are defined outside cruft.go.
`CheckDeploymentReady` is the SDK predicate used by `reconcileRemainingRelationshipLabels`.
The three predicates only read their arguments; `rewriteOldObjects` (the sweep) and
`removeStoredVersion` (the ledger prune) write through the client and report an error. -/
structure Helpers where
  isControllerDeployment : Deployment → Bool
  CheckDeploymentReady : Deployment → Bool
  newestVersion : CustomResourceDefinition → String
  olderVersionsExist : String → CustomResourceDefinition → Bool
  desiredIsStorage : String → CustomResourceDefinition → Bool
  rewriteOldObjects : String → CustomResourceDefinition → Option Error
  removeStoredVersion : String → CustomResourceDefinition → Option Error

/-- A call that leaves `reconcileCDICRD`, with its arguments. -/
inductive Call where
  | Get
  | rewriteOldObjects (desiredVersion : String) (crd : CustomResourceDefinition)
  | removeStoredVersion (desiredVersion : String) (crd : CustomResourceDefinition)
  | Update (crd : CustomResourceDefinition)
  deriving DecidableEq, Repr

/-- Whether a call writes to the store (sweep, ledger prune or spec update). -/
def Call.isWrite : Call → Bool
  | Call.Get => false
  | _ => true

/-- The function `reconcileCDICRD`: the returned error and the calls made, in order.
In the stale branch the statement `return err` returns the variable assigned by the `Get`. -/
def reconcileCDICRD (h : Helpers) (args : ReconcileCallbackArgs) :
    Option Error × List Call :=
  if args.State ≠ ReconcileState.PostRead then
    (none, [])
  else
    let deployment := args.CurrentObject
    if !h.isControllerDeployment deployment then
      (none, [])
    else
      let (crd, err) := args.Client.Get
      let crdCopy := crd
      match err with
      | some e =>
        if IsNotFound e then
          (none, [Call.Get])
        else
          (some e, [Call.Get])
      | none =>
        let desiredVersion := h.newestVersion crd
        if h.olderVersionsExist desiredVersion crd then
          if !h.desiredIsStorage desiredVersion crd then
            (err, [Call.Get])
          else
            match h.rewriteOldObjects desiredVersion crd with
            | some e => (some e, [Call.Get, Call.rewriteOldObjects desiredVersion crd])
            | none =>
              match h.removeStoredVersion desiredVersion crd with
              | some e =>
                (some e, [Call.Get, Call.rewriteOldObjects desiredVersion crd,
                  Call.removeStoredVersion desiredVersion crd])
              | none =>
                (none, [Call.Get, Call.rewriteOldObjects desiredVersion crd,
                  Call.removeStoredVersion desiredVersion crd])
        else
          let crd := removeOldVersions desiredVersion crd
          if !deepEqualCRD crdCopy crd then
            match args.Client.Update crd with
            | some e => (some e, [Call.Get, Call.Update crd])
            | none => (none, [Call.Get, Call.Update crd])
          else
            (none, [Call.Get])

/-- Proof aid, not part of the source: the stale branch of a pass that got the CRD, in closed
form. `reconcileCDICRD_fetched` proves that the function agrees with it. -/
def staleBranch (h : Helpers) (d : String) (crd : CustomResourceDefinition) :
    Option Error × List Call :=
  if h.desiredIsStorage d crd = false then (none, [Call.Get])
  else match h.rewriteOldObjects d crd with
    | some e => (some e, [Call.Get, Call.rewriteOldObjects d crd])
    | none =>
      (h.removeStoredVersion d crd,
        [Call.Get, Call.rewriteOldObjects d crd, Call.removeStoredVersion d crd])

/-- Proof aid, not part of the source: the branch without stale versions of a pass that got
the CRD, in closed form. `reconcileCDICRD_fetched` proves that the function agrees with it. -/
def pruneBranch (args : ReconcileCallbackArgs) (d : String) (crd : CustomResourceDefinition) :
    Option Error × List Call :=
  if deepEqualCRD crd (removeOldVersions d crd) = true then (none, [Call.Get])
  else (args.Client.Update (removeOldVersions d crd),
    [Call.Get, Call.Update (removeOldVersions d crd)])

/-- The result each call of a pass returned: read off the client and the helpers. -/
def Call.result (h : Helpers) (args : ReconcileCallbackArgs) : Call → Option Error
  | Call.Get => args.Client.Get.2
  | Call.rewriteOldObjects desiredVersion crd => h.rewriteOldObjects desiredVersion crd
  | Call.removeStoredVersion desiredVersion crd => h.removeStoredVersion desiredVersion crd
  | Call.Update crd => args.Client.Update crd

/-! ## The persisted type definition -/

/-- The names in the schema version list of a CRD. -/
def schemaNames (crd : CustomResourceDefinition) : List String :=
  crd.Spec.Versions.toList.map (fun v => v.Name)

/-- Modelled from the spec: the Stale-Version Detector of section 4.2, whose code
(`olderVersionsExist`) is outside cruft.go. The stale names are the ledger entries whose
Version Ordering rank is lower than the rank of the desired version; `rank` is the Version
Ordering, a function the spec leaves abstract. -/
def staleVersions (rank : String → Nat) (desiredVersion : String)
    (crd : CustomResourceDefinition) : List String :=
  crd.Status.StoredVersions.filter (fun n => decide (rank n < rank desiredVersion))

/-- Modelled from the spec: `olderVersionsExist` answers whether the Stale-Version Detector
of section 4.2 returned a non-empty set. -/
def specOlderVersionsExist (rank : String → Nat) (desiredVersion : String)
    (crd : CustomResourceDefinition) : Bool :=
  !(staleVersions rank desiredVersion crd).isEmpty

/-- Modelled from the spec: the Desired-Version Selector of section 2 (`newestVersion`, whose
code is outside cruft.go) picks the schema version that ranks highest in the Version
Ordering, the first one listed among equals; the empty name when the schema is empty. -/
def specNewestVersion (rank : String → Nat) (crd : CustomResourceDefinition) : String :=
  match schemaNames crd with
  | [] => ""
  | n :: ns => ns.foldl (fun best m => if rank best < rank m then m else best) n

/-- Modelled from the spec: the ledger that the Ledger Pruner of section 4.4
(`removeStoredVersion`, whose code is outside cruft.go) persists: the stored ledger with
exactly the stale names removed. -/
def prunedLedger (rank : String → Nat) (desiredVersion : String)
    (crd : CustomResourceDefinition) (ledger : List String) : List String :=
  ledger.filter (fun n => !(staleVersions rank desiredVersion crd).contains n)

/-- Modelled from the spec: what a call leaves in the store for the type definition, given
the result the call returned. A failed call and a read leave it as it was. The sweep of
section 4.3 (`rewriteOldObjects`) rewrites instances only. The Ledger Pruner of section 4.4
(`removeStoredVersion`) persists the status with the pruned ledger. A spec `Update` persists
the spec it was given and leaves the status. -/
def persist (rank : String → Nat) (stored : CustomResourceDefinition) (c : Call)
    (result : Option Error) : CustomResourceDefinition :=
  match result with
  | some _ => stored
  | none =>
    match c with
    | Call.Get => stored
    | Call.rewriteOldObjects _ _ => stored
    | Call.removeStoredVersion desiredVersion crd =>
      let ledger := prunedLedger rank desiredVersion crd stored.Status.StoredVersions
      { stored with Status := { StoredVersions := ledger } }
    | Call.Update crd => { stored with Spec := crd.Spec }

/-- The type definition in the store after one pass of `reconcileCDICRD`. -/
def storeAfter (rank : String → Nat) (h : Helpers) (args : ReconcileCallbackArgs)
    (stored : CustomResourceDefinition) : CustomResourceDefinition :=
  (reconcileCDICRD h args).2.foldl (fun s c => persist rank s c (c.result h args)) stored

/-- The ledger-never-orphaned invariant of section 3 for desired version `d`: every name in
the stored-version ledger is `d` or the name of a schema version. -/
def ledgerCovered (d : String) (crd : CustomResourceDefinition) : Prop :=
  ∀ n ∈ crd.Status.StoredVersions, n = d ∨ n ∈ schemaNames crd

instance (d : String) (crd : CustomResourceDefinition) : Decidable (ledgerCovered d crd) := by
  unfold ledgerCovered; infer_instance

/-! ## Concrete objects used in the examples -/

def v1alpha1 : CustomResourceDefinitionVersion :=
  { Name := "v1alpha1", Served := true, Storage := false, Schema := "alpha schema" }

def v1beta1 : CustomResourceDefinitionVersion :=
  { Name := "v1beta1", Served := true, Storage := true, Schema := "beta schema" }

/-- The CDI type definition with the given schema versions and stored-version ledger. -/
def cdiCRD (versions : Slice CustomResourceDefinitionVersion) (ledger : List String) :
    CustomResourceDefinition :=
  { Name := "cdis.cdi.kubevirt.io",
    Spec := { Group := "cdi.kubevirt.io", Versions := versions, PreserveUnknownFields := false },
    Status := { StoredVersions := ledger } }

/-- The controller Deployment with one desired replica, of which `ready` are ready. -/
def cdiDeployment (ready : Int) : Deployment :=
  { Name := "cdi-deployment", Namespace := "cdi", SpecReplicas := some 1, StatusReplicas := 1,
    StatusReadyReplicas := ready }

/-- A Version Ordering for the examples: v1 over v1beta1 over v1alpha1 over anything else. -/
def exampleRank (n : String) : Nat :=
  if n == "v1" then 3 else if n == "v1beta1" then 2 else if n == "v1alpha1" then 1 else 0

/-- Modelled from the spec: a Version Ordering by the ordering key of section 3 (maturity
tier, then numeric suffix). The key does not separate v1beta1 from v2beta1: both are beta
versions with suffix 1 and get the same rank. -/
def tiedRank (n : String) : Nat :=
  if n == "v1beta1" || n == "v2beta1" then 2 else if n == "v1alpha1" then 1 else 0

/-- The version v2beta1, served and not the storage version. -/
def v2beta1 : CustomResourceDefinitionVersion :=
  { Name := "v2beta1", Served := true, Storage := false, Schema := "beta schema" }

/-- The version v1beta1 with a schema whose maximum is not a number. -/
def v1beta1NaN : CustomResourceDefinitionVersion :=
  { v1beta1 with SchemaMaximum := some Float64.NaN }

/-- Helpers for the examples. The Deployment is the controller one when it is named
`cdi-deployment`; it is ready when desired, current and ready replica counts agree; the
desired version is flagged as storage when a schema version of that name has the flag;
sweep and ledger prune fail with the given errors. -/
def exampleHelpers (sweep prune : Option Error) : Helpers :=
  { isControllerDeployment := fun d => d.Name == "cdi-deployment",
    CheckDeploymentReady := fun d =>
      decide (d.SpecReplicas.getD 1 = d.StatusReplicas) &&
        decide (d.StatusReplicas = d.StatusReadyReplicas),
    newestVersion := specNewestVersion exampleRank,
    olderVersionsExist := specOlderVersionsExist exampleRank,
    desiredIsStorage := fun d crd => crd.Spec.Versions.toList.any (fun v => v.Name == d && v.Storage),
    rewriteOldObjects := fun _ _ => sweep,
    removeStoredVersion := fun _ _ => prune }

/-- The helpers of the examples over the Version Ordering `tiedRank`, with a sweep and a
ledger prune that succeed. -/
def tiedHelpers : Helpers :=
  { exampleHelpers none none with
    newestVersion := specNewestVersion tiedRank,
    olderVersionsExist := specOlderVersionsExist tiedRank }

/-- A post-read callback for a Deployment with `ready` ready replicas, whose `Get` returns
`crd` and whose `Update` returns `upd`. -/
def exampleArgs (ready : Int) (crd : CustomResourceDefinition) (upd : Option Error) :
    ReconcileCallbackArgs :=
  { State := ReconcileState.PostRead, CurrentObject := cdiDeployment ready,
    Client := { Get := (crd, none), Update := fun _ => upd } }

/-! ## reconcileServiceAccounts -/

structure ServiceAccount where
  Name : String
  Namespace : String
  Annotations : List (String × String)
  deriving DecidableEq, Repr

/-- The fields of a `secv1.SecurityContextConstraints` that the code reads or writes. -/
structure SecurityContextConstraints where
  Name : String
  Users : Slice String
  deriving DecidableEq, Repr

/-- The annotation listing SCCs for a service account. -/
def SCCAnnotation : String := "cdi-scc"

/-- The SDK function `sdk.ContainsStringValue`: whether a value occurs in a list. -/
def ContainsStringValue (values : List String) (value : String) : Bool :=
  values.contains value

/-- The store client and the JSON decoder as seen by one invocation of
`reconcileServiceAccounts`: the outcome of listing the SCCs, of updating one, and of
`json.Unmarshal` into a string list. -/
structure SCCClient where
  Unmarshal : String → Except Error (List String)
  Update : SecurityContextConstraints → Option Error
  List : List SecurityContextConstraints × Option Error

structure ServiceAccountCallbackArgs where
  State : ReconcileState
  DesiredObject : Option ServiceAccount
  CurrentObject : Option ServiceAccount
  Client : SCCClient

/-- One iteration of the loop over `scc.Users`, on the pair (desiredUsers, seenUser). -/
def usersStep (add : Bool) (saName : String) (st : Slice String × Bool) (u : String) :
    Slice String × Bool :=
  if u == saName then
    if !add then
      (st.1, true)
    else
      (st.1.append u, true)
  else
    (st.1.append u, st.2)

/-- The user list computed for one SCC (cruft.go lines 163 to 179): `desiredUsers` when
the loop over the items reaches the `DeepEqual` test. -/
def desiredUsers (desiredSCCs : List String) (saName : String)
    (scc : SecurityContextConstraints) : Slice String :=
  let add := ContainsStringValue desiredSCCs scc.Name
  let st := scc.Users.toList.foldl (usersStep add saName) (Slice.alloc [], false)
  if add && !st.2 then st.1.append saName else st.1

/-- The loop over `listObj.Items`: the returned error and the SCCs handed to `Update`. -/
def sccLoop (update : SecurityContextConstraints → Option Error) (desiredSCCs : List String)
    (saName : String) :
    List SecurityContextConstraints → Option Error × List SecurityContextConstraints
  | [] => (none, [])
  | scc :: rest =>
    let users := desiredUsers desiredSCCs saName scc
    if !DeepEqual users scc.Users then
      let scc := { scc with Users := users }
      match update scc with
      | some e => (some e, [scc])
      | none =>
        let r := sccLoop update desiredSCCs saName rest
        (r.1, scc :: r.2)
    else
      sccLoop update desiredSCCs saName rest

/-- The service account a callback is about (cruft.go lines 126 to 134): the current object
when there is one, else the desired object, else none. -/
def selectServiceAccount (args : ServiceAccountCallbackArgs) : Option ServiceAccount :=
  match args.CurrentObject with
  | some co => some co
  | none => args.DesiredObject

/-- The desired SCC names (cruft.go lines 136 to 150): decoded from the annotation before a
create or an update when the annotation exists, empty otherwise. -/
def decodeDesiredSCCs (args : ServiceAccountCallbackArgs) (sa : ServiceAccount) :
    Except Error (List String) :=
  match args.State with
  | ReconcileState.PreCreate | ReconcileState.PreUpdate =>
    match sa.Annotations.lookup SCCAnnotation with
    | some val => args.Client.Unmarshal val
    | none => Except.ok []
  | _ => Except.ok []

/-- The function `reconcileServiceAccounts`: the returned error and the SCCs updated. -/
def reconcileServiceAccounts (args : ServiceAccountCallbackArgs) :
    Option Error × List SecurityContextConstraints :=
  match args.State with
  | ReconcileState.PreCreate | ReconcileState.PreUpdate | ReconcileState.PostDelete
  | ReconcileState.OperatorDelete =>
    match selectServiceAccount args with
    | none => (none, [])
    | some sa =>
      let saName := "system:serviceaccount:" ++ sa.Namespace ++ ":" ++ sa.Name
      match decodeDesiredSCCs args sa with
      | Except.error err => (some err, [])
      | Except.ok desiredSCCs =>
        match args.Client.List with
        | (_, some err) => if IsNoMatchError err then (none, []) else (some err, [])
        | (items, none) => sccLoop args.Client.Update desiredSCCs saName items
  | _ => (none, [])

end Cruft

/-! ## Lemmas on the embedding -/

namespace Cruft

theorem Slice.append_alloc {α : Type} (xs : List α) (x : α) :
    (Slice.alloc xs).append x = Slice.alloc (xs ++ [x]) := rfl

/-- The loop of `removeOldVersions` started on an allocated slice appends the filtered list. -/
theorem keepLoop_alloc (d : String) (l xs : List CustomResourceDefinitionVersion) :
    l.foldl (fun (acc : Slice CustomResourceDefinitionVersion) version =>
        if version.Name == d then acc.append version else acc) (Slice.alloc xs)
      = Slice.alloc (xs ++ l.filter (fun v => v.Name == d)) := by
  induction l generalizing xs with
  | nil => simp
  | cons v vs ih =>
    rw [List.foldl_cons, List.filter_cons]
    by_cases hv : (v.Name == d) = true
    · simp only [hv, if_true, Slice.append_alloc]
      rw [ih]
      simp
    · simp only [hv, Bool.false_eq_true, if_false]
      rw [ih]

theorem removeOldVersions_versions (d : String) (crd : CustomResourceDefinition) :
    (removeOldVersions d crd).Spec.Versions
      = Slice.alloc (crd.Spec.Versions.toList.filter (fun v => v.Name == d)) := by
  unfold removeOldVersions
  simp only
  rw [keepLoop_alloc]
  simp

/-- Filtering a list whose entries all pass the test returns the list. -/
theorem filter_all_named (d : String) (vs : List CustomResourceDefinitionVersion)
    (hall : ∀ v ∈ vs, v.Name = d) : vs.filter (fun v => v.Name == d) = vs := by
  apply List.filter_eq_self.mpr
  intro v hv
  simp [hall v hv]

/-- A pass that fails one of the two entry gates returns nil and calls nothing. -/
theorem reconcileCDICRD_gated (h : Helpers) (args : ReconcileCallbackArgs)
    (hgate : args.State ≠ ReconcileState.PostRead ∨
      h.isControllerDeployment args.CurrentObject = false) :
    reconcileCDICRD h args = (none, []) := by
  unfold reconcileCDICRD
  rcases hgate with hs | hc
  · simp [hs]
  · simp [hc]

/-- A pass whose `Get` fails. -/
theorem reconcileCDICRD_getFailed (h : Helpers) (args : ReconcileCallbackArgs)
    (hState : args.State = ReconcileState.PostRead)
    (hCtl : h.isControllerDeployment args.CurrentObject = true)
    (e : Error) (hGet : args.Client.Get.2 = some e) :
    reconcileCDICRD h args
      = if IsNotFound e then (none, [Call.Get]) else (some e, [Call.Get]) := by
  unfold reconcileCDICRD
  rcases hG : args.Client.Get with ⟨crd, err⟩
  rw [hG] at hGet
  simp only at hGet
  subst hGet
  simp [hState, hCtl]

/-- A pass that got the CRD takes one of the two branches, chosen by `olderVersionsExist`. -/
theorem reconcileCDICRD_fetched (h : Helpers) (args : ReconcileCallbackArgs)
    (hState : args.State = ReconcileState.PostRead)
    (hCtl : h.isControllerDeployment args.CurrentObject = true)
    (hGet : args.Client.Get.2 = none) :
    reconcileCDICRD h args =
      if h.olderVersionsExist (h.newestVersion args.Client.Get.1) args.Client.Get.1 = true then
        staleBranch h (h.newestVersion args.Client.Get.1) args.Client.Get.1
      else
        pruneBranch args (h.newestVersion args.Client.Get.1) args.Client.Get.1 := by
  unfold reconcileCDICRD staleBranch pruneBranch
  rcases hG : args.Client.Get with ⟨crd, err⟩
  rw [hG] at hGet
  simp only at hGet
  subst hGet
  simp only [hState, hCtl]
  by_cases ho : h.olderVersionsExist (h.newestVersion crd) crd = true
  · by_cases hs : h.desiredIsStorage (h.newestVersion crd) crd = true
    · simp only [ho, hs]
      cases h.rewriteOldObjects (h.newestVersion crd) crd with
      | some e => simp
      | none =>
        cases h.removeStoredVersion (h.newestVersion crd) crd with
        | some e => simp
        | none => simp
    · simp [ho, hs]
  · by_cases heq : deepEqualCRD crd (removeOldVersions (h.newestVersion crd) crd) = true
    · simp [ho, heq]
    · simp only [ho, heq]
      cases args.Client.Update (removeOldVersions (h.newestVersion crd) crd) with
      | some e => simp
      | none => simp

end Cruft

/-! ## Properties of removeOldVersions and reconcileCDICRD -/

namespace Cruft

/-- C3 (schema pruner result). After `removeOldVersions d crd` the version list is exactly the
entries of the original list named `d`, in their original order and unmodified: it is the
original list filtered on `Name == d`, hence a sublist of it; every entry of the result is
named `d` and is an entry of the original list, every original entry named `d` is kept and
every entry with another name is dropped. The other fields of the CRD are untouched. -/
theorem removeOldVersions_keeps_exactly_desired (d : String) (crd : CustomResourceDefinition) :
    (removeOldVersions d crd).Spec.Versions
        = Slice.alloc (crd.Spec.Versions.toList.filter (fun v => v.Name == d)) ∧
    ((removeOldVersions d crd).Spec.Versions.toList).Sublist crd.Spec.Versions.toList ∧
    (∀ v ∈ (removeOldVersions d crd).Spec.Versions.toList,
        v.Name = d ∧ v ∈ crd.Spec.Versions.toList) ∧
    (∀ v ∈ crd.Spec.Versions.toList,
        (v.Name = d → v ∈ (removeOldVersions d crd).Spec.Versions.toList) ∧
        (v.Name ≠ d → v ∉ (removeOldVersions d crd).Spec.Versions.toList)) ∧
    (removeOldVersions d crd).Name = crd.Name ∧
    (removeOldVersions d crd).Status = crd.Status ∧
    (removeOldVersions d crd).Spec.Group = crd.Spec.Group ∧
    (removeOldVersions d crd).Spec.PreserveUnknownFields = crd.Spec.PreserveUnknownFields := by
  have hv := removeOldVersions_versions d crd
  refine ⟨hv, ?_, ?_, ?_, rfl, rfl, rfl, rfl⟩
  · rw [hv]
    exact List.filter_sublist _
  · intro v hmem
    rw [hv] at hmem
    simp only [Slice.toList, List.mem_filter, beq_iff_eq] at hmem
    exact ⟨hmem.2, hmem.1⟩
  · intro v hmem
    rw [hv]
    simp only [Slice.toList, List.mem_filter, beq_iff_eq]
    exact ⟨fun hn => ⟨hmem, hn⟩, fun hn hh => hn hh.2⟩

/-- C1 (ordering). In a pass where `olderVersionsExist` holds of the fetched CRD the schema
pruner does not run, whatever the store client, the sweep and the ledger prune return: no
call of the pass is a spec `Update`, and every call besides the `Get` is the sweep or the
ledger prune, handed the CRD exactly as it was fetched (never a pruned one). -/
theorem reconcileCDICRD_stale_never_prunes_schema (h : Helpers) (args : ReconcileCallbackArgs)
    (hStale :
      h.olderVersionsExist (h.newestVersion args.Client.Get.1) args.Client.Get.1 = true) :
    ∀ c ∈ (reconcileCDICRD h args).2,
      (∀ crd, c ≠ Call.Update crd) ∧
      (c = Call.Get ∨
        c = Call.rewriteOldObjects (h.newestVersion args.Client.Get.1) args.Client.Get.1 ∨
        c = Call.removeStoredVersion (h.newestVersion args.Client.Get.1) args.Client.Get.1) := by
  intro c hc
  by_cases hState : args.State = ReconcileState.PostRead
  · cases hCtl : h.isControllerDeployment args.CurrentObject with
    | false =>
      rw [reconcileCDICRD_gated h args (Or.inr hCtl)] at hc
      simp at hc
    | true =>
      cases hGet : args.Client.Get.2 with
      | some e =>
        rw [reconcileCDICRD_getFailed h args hState hCtl e hGet] at hc
        have : c = Call.Get := by
          by_cases hnf : IsNotFound e = true <;> simpa [hnf] using hc
        subst this
        simp
      | none =>
        rw [reconcileCDICRD_fetched h args hState hCtl hGet, if_pos hStale] at hc
        unfold staleBranch at hc
        split at hc
        · simp only [List.mem_singleton] at hc
          subst hc
          simp
        · split at hc
          · simp only [List.mem_cons, List.mem_singleton, List.not_mem_nil, or_false] at hc
            rcases hc with hc | hc <;> subst hc <;> simp
          · simp only [List.mem_cons, List.mem_singleton, List.not_mem_nil, or_false] at hc
            rcases hc with hc | hc | hc <;> subst hc <;> simp
  · rw [reconcileCDICRD_gated h args (Or.inl hState)] at hc
    simp at hc

/-- Witness for C1: schema v1alpha1 and v1beta1, ledger holding both names. -/
theorem reconcileCDICRD_stale_never_prunes_schema_witness :
    (exampleHelpers none none).olderVersionsExist
        ((exampleHelpers none none).newestVersion
          (cdiCRD (Slice.alloc [v1alpha1, v1beta1]) ["v1alpha1", "v1beta1"]))
        (cdiCRD (Slice.alloc [v1alpha1, v1beta1]) ["v1alpha1", "v1beta1"]) = true ∧
    ∀ c ∈ (reconcileCDICRD (exampleHelpers none none)
        (exampleArgs 1 (cdiCRD (Slice.alloc [v1alpha1, v1beta1]) ["v1alpha1", "v1beta1"])
          none)).2,
      (∀ crd, c ≠ Call.Update crd) ∧
      (c = Call.Get ∨
        c = Call.rewriteOldObjects "v1beta1"
          (cdiCRD (Slice.alloc [v1alpha1, v1beta1]) ["v1alpha1", "v1beta1"]) ∨
        c = Call.removeStoredVersion "v1beta1"
          (cdiCRD (Slice.alloc [v1alpha1, v1beta1]) ["v1alpha1", "v1beta1"])) :=
  ⟨by decide,
    reconcileCDICRD_stale_never_prunes_schema (exampleHelpers none none)
      (exampleArgs 1 (cdiCRD (Slice.alloc [v1alpha1, v1beta1]) ["v1alpha1", "v1beta1"]) none)
      (by decide)⟩

/-- A pass in the stale branch whose desired version is not flagged as storage returns the
`err` of the `Get`, which is nil there, after the `Get` alone. -/
theorem reconcileCDICRD_notStorage (h : Helpers) (args : ReconcileCallbackArgs)
    (hState : args.State = ReconcileState.PostRead)
    (hCtl : h.isControllerDeployment args.CurrentObject = true)
    (hGet : args.Client.Get.2 = none)
    (hStale :
      h.olderVersionsExist (h.newestVersion args.Client.Get.1) args.Client.Get.1 = true)
    (hNot : h.desiredIsStorage (h.newestVersion args.Client.Get.1) args.Client.Get.1 = false) :
    reconcileCDICRD h args = (none, [Call.Get]) := by
  rw [reconcileCDICRD_fetched h args hState hCtl hGet, if_pos hStale]
  simp [staleBranch, hNot]

/-- C4 (the code at the failing input). The schema lists v1alpha1 flagged as storage and
v1beta1 not flagged, the ledger holds both names. The pass reaches the storage check (the CRD
is fetched, stale versions are detected), the desired version v1beta1 is not flagged as
storage, and `reconcileCDICRD` returns the nil error after the `Get` alone. -/
theorem reconcileCDICRD_not_storage_returns_nil :
    (exampleHelpers none none).olderVersionsExist "v1beta1"
      (cdiCRD (Slice.alloc [{ v1alpha1 with Storage := true }, { v1beta1 with Storage := false }])
        ["v1alpha1", "v1beta1"]) = true ∧
    (exampleHelpers none none).desiredIsStorage "v1beta1"
      (cdiCRD (Slice.alloc [{ v1alpha1 with Storage := true }, { v1beta1 with Storage := false }])
        ["v1alpha1", "v1beta1"]) = false ∧
    reconcileCDICRD (exampleHelpers none none)
      (exampleArgs 1
        (cdiCRD (Slice.alloc [{ v1alpha1 with Storage := true }, { v1beta1 with Storage := false }])
          ["v1alpha1", "v1beta1"]) none) = (none, [Call.Get]) := by
  decide

/-- C5 (counterexample). Both schema versions carry the storage flag. With the ledger
holding v1beta1 only, no stale version is detected and the pass issues a spec `Update` that
drops v1alpha1; with the ledger holding both names the pass runs the sweep and the ledger
prune. Either pass writes. -/
theorem reconcileCDICRD_two_storage_flags_still_writes :
    ([{ v1alpha1 with Storage := true }, v1beta1].filter (fun v => v.Storage)).length = 2 ∧
    reconcileCDICRD (exampleHelpers none none)
      (exampleArgs 1 (cdiCRD (Slice.alloc [{ v1alpha1 with Storage := true }, v1beta1])
        ["v1beta1"]) none)
      = (none, [Call.Get, Call.Update (cdiCRD (Slice.alloc [v1beta1]) ["v1beta1"])]) ∧
    reconcileCDICRD (exampleHelpers none none)
      (exampleArgs 1 (cdiCRD (Slice.alloc [{ v1alpha1 with Storage := true }, v1beta1])
        ["v1alpha1", "v1beta1"]) none)
      = (none, [Call.Get,
          Call.rewriteOldObjects "v1beta1"
            (cdiCRD (Slice.alloc [{ v1alpha1 with Storage := true }, v1beta1])
              ["v1alpha1", "v1beta1"]),
          Call.removeStoredVersion "v1beta1"
            (cdiCRD (Slice.alloc [{ v1alpha1 with Storage := true }, v1beta1])
              ["v1alpha1", "v1beta1"])]) := by
  decide

/-- C5 (amended). The storage check of the code is `desiredIsStorage`, made in the stale
branch only: a pass in which stale versions are detected and the desired version is not
flagged as storage issues no write at all (no sweep, no ledger write, no spec `Update`). -/
theorem reconcileCDICRD_no_write_when_desired_not_storage (h : Helpers)
    (args : ReconcileCallbackArgs)
    (hStale :
      h.olderVersionsExist (h.newestVersion args.Client.Get.1) args.Client.Get.1 = true)
    (hNot : h.desiredIsStorage (h.newestVersion args.Client.Get.1) args.Client.Get.1 = false) :
    ∀ c ∈ (reconcileCDICRD h args).2, c.isWrite = false := by
  intro c hc
  by_cases hState : args.State = ReconcileState.PostRead
  · cases hCtl : h.isControllerDeployment args.CurrentObject with
    | false =>
      rw [reconcileCDICRD_gated h args (Or.inr hCtl)] at hc
      simp at hc
    | true =>
      cases hGet : args.Client.Get.2 with
      | some e =>
        rw [reconcileCDICRD_getFailed h args hState hCtl e hGet] at hc
        have : c = Call.Get := by
          by_cases hnf : IsNotFound e = true <;> simpa [hnf] using hc
        subst this
        rfl
      | none =>
        rw [reconcileCDICRD_notStorage h args hState hCtl hGet hStale hNot] at hc
        simp only [List.mem_singleton] at hc
        subst hc
        rfl
  · rw [reconcileCDICRD_gated h args (Or.inl hState)] at hc
    simp at hc

/-- Witness for C5 (amended): neither schema version is flagged as storage, the ledger names
both. -/
theorem reconcileCDICRD_no_write_when_desired_not_storage_witness :
    (exampleHelpers none none).desiredIsStorage "v1beta1"
      (cdiCRD (Slice.alloc [v1alpha1, { v1beta1 with Storage := false }])
        ["v1alpha1", "v1beta1"]) = false ∧
    ∀ c ∈ (reconcileCDICRD (exampleHelpers none none)
        (exampleArgs 1 (cdiCRD (Slice.alloc [v1alpha1, { v1beta1 with Storage := false }])
          ["v1alpha1", "v1beta1"]) none)).2, c.isWrite = false :=
  ⟨by decide,
    reconcileCDICRD_no_write_when_desired_not_storage (exampleHelpers none none)
      (exampleArgs 1 (cdiCRD (Slice.alloc [v1alpha1, { v1beta1 with Storage := false }])
        ["v1alpha1", "v1beta1"]) none)
      (by decide) (by decide)⟩

/-- C6 (sweep failure aborts the pass). When stale versions exist, the sweep is run (the
desired version is the storage version) and `rewriteOldObjects` returns an error, the pass
returns that same error, its only calls are the `Get` and the sweep (so the ledger prune is
not invoked and no spec `Update` is issued), and the type definition in the store, ledger and
schema version list included, is the same after the pass as before it. -/
theorem reconcileCDICRD_sweep_failure_aborts (h : Helpers) (args : ReconcileCallbackArgs)
    (e : Error)
    (hState : args.State = ReconcileState.PostRead)
    (hCtl : h.isControllerDeployment args.CurrentObject = true)
    (hGet : args.Client.Get.2 = none)
    (hStale :
      h.olderVersionsExist (h.newestVersion args.Client.Get.1) args.Client.Get.1 = true)
    (hStorage :
      h.desiredIsStorage (h.newestVersion args.Client.Get.1) args.Client.Get.1 = true)
    (hSweep :
      h.rewriteOldObjects (h.newestVersion args.Client.Get.1) args.Client.Get.1 = some e) :
    reconcileCDICRD h args
      = (some e, [Call.Get,
          Call.rewriteOldObjects (h.newestVersion args.Client.Get.1) args.Client.Get.1]) ∧
    (∀ c ∈ (reconcileCDICRD h args).2,
      (∀ d crd, c ≠ Call.removeStoredVersion d crd) ∧ (∀ crd, c ≠ Call.Update crd)) ∧
    (∀ (rank : String → Nat) (stored : CustomResourceDefinition),
      storeAfter rank h args stored = stored) := by
  have hres : reconcileCDICRD h args
      = (some e, [Call.Get,
          Call.rewriteOldObjects (h.newestVersion args.Client.Get.1) args.Client.Get.1]) := by
    rw [reconcileCDICRD_fetched h args hState hCtl hGet, if_pos hStale]
    simp [staleBranch, hStorage, hSweep]
  refine ⟨hres, ?_, ?_⟩
  · intro c hc
    rw [hres] at hc
    simp only [List.mem_cons, List.mem_singleton, List.not_mem_nil, or_false] at hc
    rcases hc with hc | hc <;> subst hc <;> simp
  · intro rank stored
    unfold storeAfter
    rw [hres]
    simp [persist, Call.result, hGet, hSweep]

/-- Witness for C6: the sweep fails with a timeout on a CRD with a stale ledger entry. -/
theorem reconcileCDICRD_sweep_failure_aborts_witness :
    reconcileCDICRD (exampleHelpers (some (Error.Other "timeout")) none)
        (exampleArgs 1 (cdiCRD (Slice.alloc [v1alpha1, v1beta1]) ["v1alpha1", "v1beta1"]) none)
      = (some (Error.Other "timeout"), [Call.Get,
          Call.rewriteOldObjects "v1beta1"
            (cdiCRD (Slice.alloc [v1alpha1, v1beta1]) ["v1alpha1", "v1beta1"])]) :=
  (reconcileCDICRD_sweep_failure_aborts (exampleHelpers (some (Error.Other "timeout")) none)
    (exampleArgs 1 (cdiCRD (Slice.alloc [v1alpha1, v1beta1]) ["v1alpha1", "v1beta1"]) none)
    (Error.Other "timeout") (by decide) (by decide) (by decide) (by decide) (by decide)
    (by decide)).1

/-- C7 (vanished type definition). In a pass that fetches the CRD (both entry gates passed)
and whose `Get` returns an error: a not-found error makes the pass return nil, any other
error is returned as it is; in both cases the `Get` is the only call (no sweep, no ledger
write, no spec `Update`) and the type definition in the store is left as it was. -/
theorem reconcileCDICRD_get_error (h : Helpers) (args : ReconcileCallbackArgs) (e : Error)
    (hState : args.State = ReconcileState.PostRead)
    (hCtl : h.isControllerDeployment args.CurrentObject = true)
    (hGet : args.Client.Get.2 = some e) :
    (IsNotFound e = true → (reconcileCDICRD h args).1 = none) ∧
    (IsNotFound e = false → (reconcileCDICRD h args).1 = some e) ∧
    (reconcileCDICRD h args).2 = [Call.Get] ∧
    (∀ c ∈ (reconcileCDICRD h args).2, c.isWrite = false) ∧
    (∀ (rank : String → Nat) (stored : CustomResourceDefinition),
      storeAfter rank h args stored = stored) := by
  have hres := reconcileCDICRD_getFailed h args hState hCtl e hGet
  have hcalls : (reconcileCDICRD h args).2 = [Call.Get] := by
    rw [hres]
    by_cases hnf : IsNotFound e = true <;> simp [hnf]
  refine ⟨?_, ?_, hcalls, ?_, ?_⟩
  · intro hnf
    rw [hres]
    simp [hnf]
  · intro hnf
    rw [hres]
    simp [hnf]
  · intro c hc
    rw [hcalls] at hc
    simp only [List.mem_singleton] at hc
    subst hc
    rfl
  · intro rank stored
    unfold storeAfter
    rw [hcalls]
    simp [persist, Call.result, hGet]

/-- Witness for C7: a `Get` that fails with a timeout, which is not a not-found error, and a
`Get` that fails with a not-found error. -/
theorem reconcileCDICRD_get_error_witness :
    (reconcileCDICRD (exampleHelpers none none)
      { State := ReconcileState.PostRead, CurrentObject := cdiDeployment 1,
        Client := { Get := (cdiCRD Slice.nil [], some (Error.Other "timeout")),
                    Update := fun _ => none } }).1 = some (Error.Other "timeout") ∧
    (reconcileCDICRD (exampleHelpers none none)
      { State := ReconcileState.PostRead, CurrentObject := cdiDeployment 1,
        Client := { Get := (cdiCRD Slice.nil [], some (Error.NotFound "cdis.cdi.kubevirt.io")),
                    Update := fun _ => none } }).1 = none :=
  ⟨(reconcileCDICRD_get_error (exampleHelpers none none)
      { State := ReconcileState.PostRead, CurrentObject := cdiDeployment 1,
        Client := { Get := (cdiCRD Slice.nil [], some (Error.Other "timeout")),
                    Update := fun _ => none } }
      (Error.Other "timeout") (by decide) (by decide) (by decide)).2.1 (by decide),
    (reconcileCDICRD_get_error (exampleHelpers none none)
      { State := ReconcileState.PostRead, CurrentObject := cdiDeployment 1,
        Client := { Get := (cdiCRD Slice.nil [], some (Error.NotFound "cdis.cdi.kubevirt.io")),
                    Update := fun _ => none } }
      (Error.NotFound "cdis.cdi.kubevirt.io") (by decide) (by decide) (by decide)).1
      (by decide)⟩

/-- On a CRD whose version list is an allocated slice holding only versions named `d`,
`removeOldVersions d` returns the CRD itself. -/
theorem removeOldVersions_pruned (d : String) (crd : CustomResourceDefinition)
    (vs : List CustomResourceDefinitionVersion)
    (hAlloc : crd.Spec.Versions = Slice.alloc vs) (hPruned : ∀ v ∈ vs, v.Name = d) :
    removeOldVersions d crd = crd := by
  have hv := removeOldVersions_versions d crd
  rw [hAlloc] at hv
  simp only [Slice.toList] at hv
  rw [filter_all_named d vs hPruned, ← hAlloc] at hv
  have h1 : (removeOldVersions d crd).Name = crd.Name := rfl
  have h2 : (removeOldVersions d crd).Status = crd.Status := rfl
  have h3 : (removeOldVersions d crd).Spec.Group = crd.Spec.Group := rfl
  have h4 : (removeOldVersions d crd).Spec.PreserveUnknownFields
      = crd.Spec.PreserveUnknownFields := rfl
  cases hr : removeOldVersions d crd with
  | mk rn rspec rstatus =>
    cases crd with
    | mk cn cspec cstatus =>
      rw [hr] at hv h1 h2 h3 h4
      cases rspec with
      | mk rg rv rp =>
        cases cspec with
        | mk cg cv cp =>
          simp only at hv h1 h2 h3 h4
          subst hv h1 h2 h3 h4
          rfl

/-- A version entry whose schema holds no not-a-number is deeply equal to its copy. -/
theorem deepEqualVersion_self (v : CustomResourceDefinitionVersion)
    (hv : v.SchemaMaximum ≠ some Float64.NaN) : deepEqualVersion v v = true := by
  unfold deepEqualVersion
  cases hm : v.SchemaMaximum with
  | none => simp [deepEqualFloat64Ptr]
  | some f =>
    cases f with
    | NaN => exact absurd hm hv
    | number x => simp [deepEqualFloat64Ptr, Float64.equal]

theorem deepEqualVersionList_self (vs : List CustomResourceDefinitionVersion)
    (hvs : ∀ v ∈ vs, v.SchemaMaximum ≠ some Float64.NaN) :
    deepEqualVersionList vs vs = true := by
  induction vs with
  | nil => rfl
  | cons v rest ih =>
    unfold deepEqualVersionList
    rw [deepEqualVersion_self v (hvs v (List.mem_cons_self _ _)),
      ih (fun w hw => hvs w (List.mem_cons_of_mem _ hw))]
    rfl

/-- A CRD whose version slice is allocated and holds no not-a-number is deeply equal to its
copy. -/
theorem deepEqualCRD_self (crd : CustomResourceDefinition)
    (vs : List CustomResourceDefinitionVersion)
    (hAlloc : crd.Spec.Versions = Slice.alloc vs)
    (hvs : ∀ v ∈ vs, v.SchemaMaximum ≠ some Float64.NaN) : deepEqualCRD crd crd = true := by
  unfold deepEqualCRD
  rw [hAlloc]
  simp [deepEqualVersions, deepEqualVersionList_self vs hvs]

/-- C8 (counterexample). The fetched CRD lists the single version v1beta1, the desired one,
so its schema version list is already pruned, and no stale version is detected; the schema of
v1beta1 holds a not-a-number as its maximum. The pruner keeps the list as it is, but the
equality used for the write check finds the CRD different from its copy, and the pass issues
the spec `Update`. Likewise the nil version list, which holds no version at all, is replaced
by an allocated empty list that the write check tells apart from nil. -/
theorem reconcileCDICRD_pruned_still_issues_update :
    (∀ v ∈ (cdiCRD (Slice.alloc [v1beta1NaN]) ["v1beta1"]).Spec.Versions.toList,
      v.Name = (exampleHelpers none none).newestVersion
        (cdiCRD (Slice.alloc [v1beta1NaN]) ["v1beta1"])) ∧
    (exampleHelpers none none).olderVersionsExist
      ((exampleHelpers none none).newestVersion (cdiCRD (Slice.alloc [v1beta1NaN]) ["v1beta1"]))
      (cdiCRD (Slice.alloc [v1beta1NaN]) ["v1beta1"]) = false ∧
    removeOldVersions "v1beta1" (cdiCRD (Slice.alloc [v1beta1NaN]) ["v1beta1"])
      = cdiCRD (Slice.alloc [v1beta1NaN]) ["v1beta1"] ∧
    deepEqualCRD (cdiCRD (Slice.alloc [v1beta1NaN]) ["v1beta1"])
      (removeOldVersions "v1beta1" (cdiCRD (Slice.alloc [v1beta1NaN]) ["v1beta1"])) = false ∧
    reconcileCDICRD (exampleHelpers none none)
      (exampleArgs 1 (cdiCRD (Slice.alloc [v1beta1NaN]) ["v1beta1"]) none)
      = (none, [Call.Get, Call.Update (cdiCRD (Slice.alloc [v1beta1NaN]) ["v1beta1"])]) ∧
    removeOldVersions "v1beta1" (cdiCRD Slice.nil []) = cdiCRD (Slice.alloc []) [] ∧
    deepEqualCRD (cdiCRD Slice.nil []) (removeOldVersions "v1beta1" (cdiCRD Slice.nil []))
      = false := by
  decide

/-- C8 (amended). When the fetched CRD has an allocated version list (possibly of length
zero) that holds no version whose name differs from the desired one and no schema with a
not-a-number, and no stale version is detected, the pass returns nil and its only call is
the `Get`: no `Update` is issued. `removeOldVersions` returns such a CRD unchanged, and it is
equal, under the equality used for the write check, to its copy taken before the call. On
every CRD a second application of `removeOldVersions` changes nothing. -/
theorem reconcileCDICRD_pruned_is_noop (h : Helpers) (args : ReconcileCallbackArgs)
    (vs : List CustomResourceDefinitionVersion)
    (hState : args.State = ReconcileState.PostRead)
    (hCtl : h.isControllerDeployment args.CurrentObject = true)
    (hGet : args.Client.Get.2 = none)
    (hNoStale :
      h.olderVersionsExist (h.newestVersion args.Client.Get.1) args.Client.Get.1 = false)
    (hAlloc : args.Client.Get.1.Spec.Versions = Slice.alloc vs)
    (hPruned : ∀ v ∈ vs, v.Name = h.newestVersion args.Client.Get.1)
    (hNumbers : ∀ v ∈ vs, v.SchemaMaximum ≠ some Float64.NaN) :
    reconcileCDICRD h args = (none, [Call.Get]) ∧
    removeOldVersions (h.newestVersion args.Client.Get.1) args.Client.Get.1
      = args.Client.Get.1 ∧
    deepEqualCRD args.Client.Get.1
      (removeOldVersions (h.newestVersion args.Client.Get.1) args.Client.Get.1) = true ∧
    (∀ (d : String) (crd : CustomResourceDefinition),
      removeOldVersions d (removeOldVersions d crd) = removeOldVersions d crd) := by
  have heq := removeOldVersions_pruned (h.newestVersion args.Client.Get.1) args.Client.Get.1 vs
    hAlloc hPruned
  have hdeep : deepEqualCRD args.Client.Get.1
      (removeOldVersions (h.newestVersion args.Client.Get.1) args.Client.Get.1) = true := by
    rw [heq]
    exact deepEqualCRD_self args.Client.Get.1 vs hAlloc hNumbers
  refine ⟨?_, heq, hdeep, ?_⟩
  · rw [reconcileCDICRD_fetched h args hState hCtl hGet]
    simp [hNoStale, pruneBranch, hdeep]
  · intro d crd
    apply removeOldVersions_pruned d (removeOldVersions d crd)
      (crd.Spec.Versions.toList.filter (fun v => v.Name == d))
      (removeOldVersions_versions d crd)
    intro v hv
    simp only [List.mem_filter, beq_iff_eq] at hv
    exact hv.2

/-- Witness for C8 (amended): the scenario of the spec, schema v1beta1 alone and an empty
ledger. -/
theorem reconcileCDICRD_pruned_is_noop_witness :
    reconcileCDICRD (exampleHelpers none none)
      (exampleArgs 1 (cdiCRD (Slice.alloc [v1beta1]) []) none) = (none, [Call.Get]) :=
  (reconcileCDICRD_pruned_is_noop (exampleHelpers none none)
    (exampleArgs 1 (cdiCRD (Slice.alloc [v1beta1]) []) none) [v1beta1]
    (by decide) (by decide) (by decide) (by decide) rfl (by decide) (by decide)).1

/-- C9 (counterexample). The callback is post-read for the controller Deployment, which is
not ready (none of its replicas is). The pass nevertheless reads the CRD and issues a spec
`Update` that drops v1alpha1. -/
theorem reconcileCDICRD_runs_when_not_ready :
    (exampleHelpers none none).CheckDeploymentReady (cdiDeployment 0) = false ∧
    reconcileCDICRD (exampleHelpers none none)
      (exampleArgs 0 (cdiCRD (Slice.alloc [v1alpha1, v1beta1]) ["v1beta1"]) none)
      = (none, [Call.Get, Call.Update (cdiCRD (Slice.alloc [v1beta1]) ["v1beta1"])]) := by
  decide

/-- C9 (amended). The entry gate of `reconcileCDICRD` has two conditions: the pass reads the
CRD exactly when the lifecycle state is post-read and the current Deployment is recognised as
the controller Deployment; readiness of the Deployment is not consulted. When either
condition fails the pass returns nil and makes no call at all, so it neither reads the CRD
nor writes. -/
theorem reconcileCDICRD_entry_gate (h : Helpers) (args : ReconcileCallbackArgs) :
    (Call.Get ∈ (reconcileCDICRD h args).2 ↔
      (args.State = ReconcileState.PostRead ∧
        h.isControllerDeployment args.CurrentObject = true)) ∧
    (¬ (args.State = ReconcileState.PostRead ∧
        h.isControllerDeployment args.CurrentObject = true) →
      reconcileCDICRD h args = (none, [])) := by
  by_cases hState : args.State = ReconcileState.PostRead
  · cases hCtl : h.isControllerDeployment args.CurrentObject with
    | false =>
      rw [reconcileCDICRD_gated h args (Or.inr hCtl)]
      simp
    | true =>
      refine ⟨⟨fun _ => ⟨hState, rfl⟩, fun _ => ?_⟩, fun hn => absurd ⟨hState, rfl⟩ hn⟩
      cases hGet : args.Client.Get.2 with
      | some e =>
        rw [reconcileCDICRD_getFailed h args hState hCtl e hGet]
        by_cases hnf : IsNotFound e = true <;> simp [hnf]
      | none =>
        rw [reconcileCDICRD_fetched h args hState hCtl hGet]
        unfold staleBranch pruneBranch
        repeat' split
        all_goals simp
  · rw [reconcileCDICRD_gated h args (Or.inl hState)]
    simp [hState]

/-- Witness for C9 (amended): a pre-update callback for the ready controller Deployment
returns nil without any call. -/
theorem reconcileCDICRD_entry_gate_witness :
    reconcileCDICRD (exampleHelpers none none)
      { State := ReconcileState.PreUpdate, CurrentObject := cdiDeployment 1,
        Client := { Get := (cdiCRD (Slice.alloc [v1alpha1, v1beta1]) ["v1beta1"], none),
                    Update := fun _ => none } } = (none, []) :=
  (reconcileCDICRD_entry_gate (exampleHelpers none none)
    { State := ReconcileState.PreUpdate, CurrentObject := cdiDeployment 1,
      Client := { Get := (cdiCRD (Slice.alloc [v1alpha1, v1beta1]) ["v1beta1"], none),
                  Update := fun _ => none } }).2 (by decide)

/-! ## Properties of reconcileServiceAccounts -/

/-- The loop over `scc.Users`, started on an allocated slice: the users kept are all of them
when `add` holds and those other than `saName` otherwise; `seenUser` records an occurrence
of `saName`. -/
theorem usersLoop_alloc (add : Bool) (saName : String) (us xs : List String) (seen : Bool) :
    us.foldl (usersStep add saName) (Slice.alloc xs, seen)
      = (Slice.alloc (xs ++ us.filter (fun u => add || u != saName)),
          seen || us.contains saName) := by
  induction us generalizing xs seen with
  | nil => simp
  | cons u rest ih =>
    rw [List.foldl_cons]
    by_cases hu : u = saName
    · subst hu
      cases add with
      | false =>
        have hstep : usersStep false u (Slice.alloc xs, seen) u = (Slice.alloc xs, true) := by
          simp [usersStep]
        rw [hstep, ih]
        simp
      | true =>
        have hstep : usersStep true u (Slice.alloc xs, seen) u
            = (Slice.alloc (xs ++ [u]), true) := by
          simp [usersStep, Slice.append_alloc]
        rw [hstep, ih]
        simp
    · have hstep : usersStep add saName (Slice.alloc xs, seen) u
          = (Slice.alloc (xs ++ [u]), seen) := by
        simp [usersStep, hu, Slice.append_alloc]
      have hne : (u != saName) = true := by simp [hu]
      have hne2 : ¬ saName = u := fun hh => hu hh.symm
      rw [hstep, ih]
      simp [List.filter_cons, hne, hne2]

/-- A slice that has an element is the allocated slice of its elements. -/
theorem Slice.alloc_toList_of_mem {α : Type} (s : Slice α) (x : α) (hx : x ∈ s.toList) :
    Slice.alloc s.toList = s := by
  cases s with
  | nil => simp [Slice.toList] at hx
  | alloc elems => rfl

/-- The user list computed for one SCC, in closed form. -/
theorem desiredUsers_eq (D : List String) (s : String) (scc : SecurityContextConstraints) :
    desiredUsers D s scc =
      if scc.Name ∈ D then
        if s ∈ scc.Users.toList then scc.Users else Slice.alloc (scc.Users.toList ++ [s])
      else Slice.alloc (scc.Users.toList.filter (fun u => u != s)) := by
  unfold desiredUsers ContainsStringValue
  simp only [usersLoop_alloc, List.nil_append, Bool.false_or]
  by_cases hD : scc.Name ∈ D
  · have hc : D.contains scc.Name = true := by simpa using hD
    by_cases hs : s ∈ scc.Users.toList
    · have hcs : scc.Users.toList.contains s = true := by simpa using hs
      simp only [hc, hcs, Bool.true_or, List.filter_true, Bool.not_true, Bool.and_false,
        Bool.false_eq_true, if_false, hD, hs, if_true]
      exact Slice.alloc_toList_of_mem scc.Users s hs
    · have hcs : scc.Users.toList.contains s = false := by simpa using hs
      simp only [hc, hcs, Bool.true_or, List.filter_true, Bool.not_false, Bool.and_true,
        if_true, hD, hs, if_false, Slice.append_alloc]
  · have hc : D.contains scc.Name = false := by simpa using hD
    simp only [hc, Bool.false_or, Bool.false_and, Bool.false_eq_true, if_false, hD]

/-- Every SCC handed to `Update` by the loop over the items is an item whose computed user
list differs from its current one, with that computed list in place of the current one. -/
theorem sccLoop_updates (update : SecurityContextConstraints → Option Error) (D : List String)
    (s : String) (items : List SecurityContextConstraints) :
    ∀ updated ∈ (sccLoop update D s items).2, ∃ scc ∈ items,
      updated = { scc with Users := desiredUsers D s scc } ∧
      desiredUsers D s scc ≠ scc.Users := by
  induction items with
  | nil => simp [sccLoop]
  | cons scc rest ih =>
    intro updated hmem
    unfold sccLoop at hmem
    by_cases heq : desiredUsers D s scc = scc.Users
    · simp only [DeepEqual, heq, decide_True, Bool.not_true, Bool.false_eq_true,
        if_false] at hmem
      obtain ⟨x, hx, hx2⟩ := ih updated hmem
      exact ⟨x, List.mem_cons_of_mem _ hx, hx2⟩
    · simp only [DeepEqual, heq, decide_False, Bool.not_false, if_true] at hmem
      split at hmem
      · simp only [List.mem_singleton] at hmem
        exact ⟨scc, List.mem_cons_self _ _, hmem, heq⟩
      · simp only [List.mem_cons] at hmem
        rcases hmem with hmem | hmem
        · exact ⟨scc, List.mem_cons_self _ _, hmem, heq⟩
        · obtain ⟨x, hx, hx2⟩ := ih updated hmem
          exact ⟨x, List.mem_cons_of_mem _ hx, hx2⟩

theorem Slice.toList_alloc {α : Type} (xs : List α) : (Slice.alloc xs).toList = xs := rfl

/-- The updates of `reconcileServiceAccounts` are those of the loop over the listed SCCs,
for some desired SCC names and some service-account name, or there are none. -/
theorem reconcileServiceAccounts_calls (args : ServiceAccountCallbackArgs) :
    (reconcileServiceAccounts args).2 = [] ∨
    ∃ (D : List String) (s : String),
      (reconcileServiceAccounts args).2
        = (sccLoop args.Client.Update D s args.Client.List.1).2 := by
  have body : ∀ r : Option Error × List SecurityContextConstraints,
      r = (match selectServiceAccount args with
        | none => (none, [])
        | some sa =>
          match decodeDesiredSCCs args sa with
          | Except.error err => (some err, [])
          | Except.ok desiredSCCs =>
            match args.Client.List with
            | (_, some err) => if IsNoMatchError err then (none, []) else (some err, [])
            | (items, none) =>
              sccLoop args.Client.Update desiredSCCs
                ("system:serviceaccount:" ++ sa.Namespace ++ ":" ++ sa.Name) items) →
      r.2 = [] ∨ ∃ (D : List String) (s : String),
        r.2 = (sccLoop args.Client.Update D s args.Client.List.1).2 := by
    intro r hr
    cases hsa : selectServiceAccount args with
    | none =>
      rw [hsa] at hr
      left
      rw [hr]
    | some sa =>
      rw [hsa] at hr
      dsimp only at hr
      cases hdec : decodeDesiredSCCs args sa with
      | error err =>
        rw [hdec] at hr
        left
        rw [hr]
      | ok desiredSCCs =>
        rw [hdec] at hr
        dsimp only at hr
        rcases hL : args.Client.List with ⟨items, lerr⟩
        rw [hL] at hr
        cases lerr with
        | some e =>
          left
          rw [hr]
          by_cases hnm : IsNoMatchError e = true <;> simp [hnm]
        | none =>
          right
          exact ⟨desiredSCCs, _, by rw [hr]⟩
  unfold reconcileServiceAccounts
  split
  · exact body _ rfl
  · exact body _ rfl
  · exact body _ rfl
  · exact body _ rfl
  · left
    rfl

/-- C10 (user-list sync). For an SCC with user list U, a service-account name s and desired
SCC names D, the computed list `desiredUsers` is U with every occurrence of s removed when
the SCC is not named in D, U itself when it is named in D and s occurs in U, and U with s
appended at the end when it is named in D and s does not occur in U. Hence s is in
`desiredUsers` exactly when the SCC is named in D, and the users other than s keep their
order and multiplicity. The loop issues an `Update` for an SCC only when `desiredUsers`
differs from U (by the test `reflect.DeepEqual` of the code), and so does
`reconcileServiceAccounts` on the listed SCCs. -/
theorem desiredUsers_sync (D : List String) (s : String) (scc : SecurityContextConstraints) :
    (desiredUsers D s scc =
      if scc.Name ∈ D then
        if s ∈ scc.Users.toList then scc.Users else Slice.alloc (scc.Users.toList ++ [s])
      else Slice.alloc (scc.Users.toList.filter (fun u => u != s))) ∧
    (s ∈ (desiredUsers D s scc).toList ↔ scc.Name ∈ D) ∧
    ((desiredUsers D s scc).toList.filter (fun u => u != s)
      = scc.Users.toList.filter (fun u => u != s)) ∧
    (∀ (update : SecurityContextConstraints → Option Error)
        (items : List SecurityContextConstraints),
      ∀ updated ∈ (sccLoop update D s items).2, ∃ item ∈ items,
        updated = { item with Users := desiredUsers D s item } ∧
        desiredUsers D s item ≠ item.Users) ∧
    (∀ args : ServiceAccountCallbackArgs,
      ∀ updated ∈ (reconcileServiceAccounts args).2, ∃ item ∈ args.Client.List.1,
        updated.Name = item.Name ∧ updated.Users ≠ item.Users) := by
  have hEq := desiredUsers_eq D s scc
  refine ⟨hEq, ?_, ?_, fun update items => sccLoop_updates update D s items, ?_⟩
  · rw [hEq]
    by_cases hD : scc.Name ∈ D
    · by_cases hs : s ∈ scc.Users.toList
      · simp [hD, hs]
      · simp [hD, hs, Slice.toList_alloc]
    · simp [hD, Slice.toList_alloc]
  · rw [hEq]
    by_cases hD : scc.Name ∈ D
    · by_cases hs : s ∈ scc.Users.toList
      · simp [hD, hs]
      · simp [hD, hs, Slice.toList_alloc, List.filter_append]
    · simp [hD, Slice.toList_alloc, List.filter_filter]
  · intro args updated hmem
    rcases reconcileServiceAccounts_calls args with hnone | ⟨D0, s0, hloop⟩
    · rw [hnone] at hmem
      simp at hmem
    · rw [hloop] at hmem
      obtain ⟨item, hitem, hupd, hne⟩ :=
        sccLoop_updates args.Client.Update D0 s0 args.Client.List.1 updated hmem
      refine ⟨item, hitem, ?_, ?_⟩
      · rw [hupd]
      · rw [hupd]
        exact hne

/-! ## The ledger invariant -/

/-- The maximum loop of `specNewestVersion` returns a listed name that no listed name
outranks. -/
theorem newestLoop_max (rank : String → Nat) (ns : List String) (n : String) :
    ns.foldl (fun best m => if rank best < rank m then m else best) n ∈ n :: ns ∧
    ∀ m ∈ n :: ns,
      rank m ≤ rank (ns.foldl (fun best m => if rank best < rank m then m else best) n) := by
  induction ns generalizing n with
  | nil => simp
  | cons a rest ih =>
    rw [List.foldl_cons]
    by_cases hlt : rank n < rank a
    · simp only [hlt, if_true]
      obtain ⟨hmem, hmax⟩ := ih a
      refine ⟨List.mem_cons_of_mem _ hmem, ?_⟩
      intro m hm
      rcases List.mem_cons.mp hm with hm | hm
      · subst hm
        exact le_trans (le_of_lt hlt) (hmax a (List.mem_cons_self _ _))
      · exact hmax m hm
    · simp only [hlt, if_false]
      obtain ⟨hmem, hmax⟩ := ih n
      refine ⟨?_, ?_⟩
      · rcases List.mem_cons.mp hmem with hm | hm
        · rw [hm]
          exact List.mem_cons_self _ _
        · exact List.mem_cons_of_mem _ (List.mem_cons_of_mem _ hm)
      · intro m hm
        rcases List.mem_cons.mp hm with hm | hm
        · subst hm
          exact hmax m (List.mem_cons_self _ _)
        · rcases List.mem_cons.mp hm with hm | hm
          · subst hm
            exact le_trans (not_lt.mp hlt) (hmax n (List.mem_cons_self _ _))
          · exact hmax m (List.mem_cons_of_mem _ hm)

/-- The newest version of a non-empty schema is one of its names and no name outranks it. -/
theorem specNewestVersion_max (rank : String → Nat) (crd : CustomResourceDefinition)
    (m : String) (hm : m ∈ schemaNames crd) :
    specNewestVersion rank crd ∈ schemaNames crd ∧
    rank m ≤ rank (specNewestVersion rank crd) := by
  unfold specNewestVersion
  cases hs : schemaNames crd with
  | nil => rw [hs] at hm; simp at hm
  | cons n ns =>
    rw [hs] at hm
    exact ⟨(newestLoop_max rank ns n).1, (newestLoop_max rank ns n).2 m hm⟩

/-- The newest version of an empty schema is the empty name. -/
theorem specNewestVersion_empty (rank : String → Nat) (crd : CustomResourceDefinition)
    (hs : schemaNames crd = []) : specNewestVersion rank crd = "" := by
  unfold specNewestVersion
  rw [hs]

/-- When the detector finds no stale version, the ledger is covered and every other schema
name ranks below the newest one, the ledger holds no name other than the newest one. -/
theorem ledger_clean_of_no_stale (rank : String → Nat) (stored : CustomResourceDefinition)
    (hTop : ∀ n ∈ schemaNames stored, n ≠ specNewestVersion rank stored →
      rank n < rank (specNewestVersion rank stored))
    (hInv : ledgerCovered (specNewestVersion rank stored) stored)
    (hNoStale : specOlderVersionsExist rank (specNewestVersion rank stored) stored = false) :
    ∀ n ∈ stored.Status.StoredVersions, n = specNewestVersion rank stored := by
  intro n hn
  rcases hInv n hn with hd | hmem
  · exact hd
  · by_contra hne
    have hlt := hTop n hmem hne
    have hin : n ∈ staleVersions rank (specNewestVersion rank stored) stored := by
      unfold staleVersions
      exact List.mem_filter.mpr ⟨hn, by simpa using hlt⟩
    unfold specOlderVersionsExist at hNoStale
    have hempty : staleVersions rank (specNewestVersion rank stored) stored = [] := by
      simpa using hNoStale
    rw [hempty] at hin
    simp at hin

/-- What one pass leaves in the store, when a successful `Get` returns the stored type
definition: the type definition as it was (and then no spec `Update` succeeded), or the
type definition with the stale names removed from the ledger (and then no spec `Update` was
issued), or, in a pass without stale versions, the type definition with the pruned spec. -/
theorem storeAfter_cases (rank : String → Nat) (h : Helpers) (args : ReconcileCallbackArgs)
    (stored : CustomResourceDefinition)
    (hGet : args.Client.Get.2 = none → args.Client.Get.1 = stored) :
    (storeAfter rank h args stored = stored ∧
      ∀ crd, Call.Update crd ∈ (reconcileCDICRD h args).2 → args.Client.Update crd ≠ none) ∨
    (storeAfter rank h args stored
        = { stored with Status :=
              ⟨prunedLedger rank (h.newestVersion stored) stored stored.Status.StoredVersions⟩ } ∧
      ∀ crd, Call.Update crd ∉ (reconcileCDICRD h args).2) ∨
    (h.olderVersionsExist (h.newestVersion stored) stored = false ∧
      storeAfter rank h args stored
        = { stored with Spec := (removeOldVersions (h.newestVersion stored) stored).Spec }) := by
  by_cases hState : args.State = ReconcileState.PostRead
  · cases hCtl : h.isControllerDeployment args.CurrentObject with
    | false =>
      left
      unfold storeAfter
      rw [reconcileCDICRD_gated h args (Or.inr hCtl)]
      simp
    | true =>
      cases hG : args.Client.Get.2 with
      | some e =>
        left
        have hres := reconcileCDICRD_getFailed h args hState hCtl e hG
        have hcalls : (reconcileCDICRD h args).2 = [Call.Get] := by
          rw [hres]
          by_cases hnf : IsNotFound e = true <;> simp [hnf]
        unfold storeAfter
        rw [hcalls]
        simp [persist, Call.result, hG]
      | none =>
        have hres := reconcileCDICRD_fetched h args hState hCtl hG
        rw [hGet hG] at hres
        by_cases hOld : h.olderVersionsExist (h.newestVersion stored) stored = true
        · rw [if_pos hOld] at hres
          unfold staleBranch at hres
          by_cases hSt : h.desiredIsStorage (h.newestVersion stored) stored = false
          · left
            rw [if_pos hSt] at hres
            unfold storeAfter
            rw [hres]
            simp [persist, Call.result, hG]
          · rw [if_neg hSt] at hres
            cases hSw : h.rewriteOldObjects (h.newestVersion stored) stored with
            | some e =>
              left
              rw [hSw] at hres
              unfold storeAfter
              rw [hres]
              simp [persist, Call.result, hG, hSw]
            | none =>
              rw [hSw] at hres
              cases hPr : h.removeStoredVersion (h.newestVersion stored) stored with
              | some e =>
                left
                unfold storeAfter
                rw [hres]
                simp [persist, Call.result, hG, hSw, hPr]
              | none =>
                right
                left
                unfold storeAfter
                rw [hres]
                simp [persist, Call.result, hG, hSw, hPr]
        · rw [if_neg hOld] at hres
          unfold pruneBranch at hres
          by_cases hEq :
              deepEqualCRD stored (removeOldVersions (h.newestVersion stored) stored) = true
          · left
            rw [if_pos hEq] at hres
            unfold storeAfter
            rw [hres]
            simp [persist, Call.result, hG]
          · rw [if_neg hEq] at hres
            cases hUp : args.Client.Update (removeOldVersions (h.newestVersion stored) stored) with
            | some e =>
              left
              unfold storeAfter
              rw [hres]
              simp [persist, Call.result, hG, hUp]
            | none =>
              right
              right
              refine ⟨by simpa using hOld, ?_⟩
              unfold storeAfter
              rw [hres]
              simp [persist, Call.result, hG, hUp]
  · left
    unfold storeAfter
    rw [reconcileCDICRD_gated h args (Or.inl hState)]
    simp

/-- The schema names after `removeOldVersions d`: the names equal to `d`, as often as
they were listed. -/
theorem schemaNames_removeOldVersions (d : String) (crd stored : CustomResourceDefinition) :
    schemaNames { stored with Spec := (removeOldVersions d crd).Spec }
      = (crd.Spec.Versions.toList.filter (fun v => v.Name == d)).map (fun v => v.Name) := by
  unfold schemaNames
  simp only [removeOldVersions_versions, Slice.toList_alloc]

end Cruft
